import Mathlib

/-!
Verification of the dual-EMA technical-analysis engine.

The development shallowly embeds the indicator pipeline
(`technical_indicators.py`) and the crossover analyzer (`ema_analyzer.py`)
over exact rationals: every pandas/numpy/talib series operation the code
uses is translated to an executable Lean function on `List ℚ`, and the
stated properties of the engine are proved against those functions.
Floating-point values that can be NaN or infinite (the RSI chain) are
modelled by an explicit extended-value type `RFloat` with IEEE-style
division-by-zero behaviour.
-/

/-- Pandas `Series.ewm(span, adjust=False).mean()` single step:
`y = α·x + (1-α)·prev`. -/
def ewmStep (a prev x : ℚ) : ℚ := a * x + (1 - a) * prev

/-- Tail of the `adjust=False` exponentially weighted mean after the seed. -/
def ewmAux (a : ℚ) (prev : ℚ) : List ℚ → List ℚ
  | [] => []
  | x :: xs => ewmStep a prev x :: ewmAux a (ewmStep a prev x) xs

/-- Pandas `Series.ewm(span, adjust=False).mean()` with weighting factor `a`:
the first output equals the first input, then the recurrence applies. -/
def ewmMean (a : ℚ) : List ℚ → List ℚ
  | [] => []
  | x :: xs => x :: ewmAux a x xs

/-- `TechnicalIndicators.calculate_ema`: `self.df[column].ewm(span=period,
adjust=False).mean()` with `α = 2/(period+1)`. -/
def calculate_ema (close : List ℚ) (period : ℕ) : List ℚ :=
  ewmMean (2 / ((period : ℚ) + 1)) close

/-- One row of the OHLCV input series (`date, open, high, low, close, vol,
pct_chg`); dates are modelled as rationals, ordered chronologically. The
`open` column is named `open_` because `open` is a Lean keyword. -/
structure InputRow where
  date : ℚ
  open_ : ℚ
  high : ℚ
  low : ℚ
  close : ℚ
  vol : ℚ
  pct_chg : ℚ
deriving DecidableEq, Repr, Inhabited

/-- Extended float value for the RSI computation chain, where pandas can
produce NaN (missing warm-up data, 0/0) and ±infinity (division of a
nonzero value by zero). -/
inductive RFloat where
  | nan : RFloat
  | inf : RFloat
  | ninf : RFloat
  | val : ℚ → RFloat
deriving DecidableEq, Repr, Inhabited

/-- `TechnicalIndicators.calculate_macd`: two `adjust=False` EMAs of close,
their difference, the signal EMA of that difference, and the histogram.
The periods default to 12/26/9 exactly as in the source signature. -/
def calculate_macd (close : List ℚ) (fast_period : ℕ := 12) (slow_period : ℕ := 26)
    (signal_period : ℕ := 9) : List ℚ × List ℚ × List ℚ :=
  let exp1 := ewmMean (2 / ((fast_period : ℚ) + 1)) close
  let exp2 := ewmMean (2 / ((slow_period : ℚ) + 1)) close
  let macd := List.zipWith (· - ·) exp1 exp2
  let signal := ewmMean (2 / ((signal_period : ℚ) + 1)) macd
  let hist := List.zipWith (· - ·) macd signal
  (macd, signal, hist)

/-- Pandas `Series.diff()`: NaN (here `none`) at the first position, else the
difference with the previous element. -/
def diffList (xs : List ℚ) : List (Option ℚ) :=
  (List.range xs.length).map fun t =>
    if t = 0 then none else some (xs.getD t 0 - xs.getD (t - 1) 0)

/-- `delta.where(delta > 0, 0)`: a NaN delta compares false, so the first
position becomes `0`; negative or zero deltas also become `0`. -/
def gainList (xs : List ℚ) : List ℚ :=
  (diffList xs).map fun d =>
    match d with
    | none => 0
    | some v => if 0 < v then v else 0

/-- `(-delta).where(delta < 0, 0)`: magnitude of the negative deltas. -/
def lossList (xs : List ℚ) : List ℚ :=
  (diffList xs).map fun d =>
    match d with
    | none => 0
    | some v => if v < 0 then -v else 0

/-- Pandas `Series.rolling(window=p).mean()` with the default
`min_periods = p`: NaN (`none`) until a full window is available, then the
mean of the trailing `p` values. -/
def rollingMean (p : ℕ) (xs : List ℚ) : List (Option ℚ) :=
  (List.range xs.length).map fun t =>
    if p ≤ t + 1 then some ((((xs.take (t + 1)).drop (t + 1 - p)).sum) / p) else none

/-- Float semantics of the pandas division `rs = gain / loss`: NaN operands
propagate; a zero denominator yields ±infinity for a nonzero numerator and
NaN for `0/0`. -/
def rsiDiv (g l : Option ℚ) : RFloat :=
  match g, l with
  | some g, some l =>
    if l = 0 then (if 0 < g then .inf else if g < 0 then .ninf else .nan)
    else .val (g / l)
  | _, _ => .nan

/-- Float semantics of `100 - (100 / (1 + rs))`: for `rs = +∞` the quotient
is `0` and the result is exactly `100`; for `rs = -∞` the quotient is `-0`
and the result is again `100`; for `rs = -1` the finite quotient `100/0`
is `+∞` so the result is `-∞`. -/
def rsiFromRs : RFloat → RFloat
  | .nan => .nan
  | .inf => .val 100
  | .ninf => .val 100
  | .val q => if 1 + q = 0 then .ninf else .val (100 - 100 / (1 + q))

/-- `TechnicalIndicators.calculate_rsi`: rolling simple means of gains and
of loss magnitudes over `period` bars, `rs = gain/loss`,
`rsi = 100 - 100/(1+rs)`. -/
def calculate_rsi (close : List ℚ) (period : ℕ := 14) : List RFloat :=
  let gain := rollingMean period (gainList close)
  let loss := rollingMean period (lossList close)
  List.zipWith (fun g l => rsiFromRs (rsiDiv g l)) gain loss

/-- True range at position `t ≥ 1`:
`max(high-low, |high-prev_close|, |low-prev_close|)`. -/
def trAt (high low close : List ℚ) (t : ℕ) : ℚ :=
  max (high.getD t 0 - low.getD t 0)
    (max |high.getD t 0 - close.getD (t - 1) 0| |low.getD t 0 - close.getD (t - 1) 0|)

/-- Seed of talib's `ATR(14)`: the simple average of the first 14 true
ranges (positions 1..14). -/
def atrSeed (high low close : List ℚ) : ℚ :=
  (((List.range 14).map fun i => trAt high low close (i + 1)).sum) / 14

/-- Talib `ATR(·,14)` value at position `t ≥ 14`: the seed average followed
by Wilder smoothing `atr = (prev*13 + tr)/14` up to `t`. -/
def atrVal (high low close : List ℚ) (t : ℕ) : ℚ :=
  (List.range (t - 14)).foldl (fun a j => (a * 13 + trAt high low close (15 + j)) / 14)
    (atrSeed high low close)

/-- Talib `ATR(high, low, close, 14)` as a series: NaN (`none`) for the
14-bar warm-up, then the Wilder-smoothed value. -/
def atrList (high low close : List ℚ) : List (Option ℚ) :=
  (List.range close.length).map fun t => if 14 ≤ t then some (atrVal high low close t) else none

/-- `talib.ATR(high, low, close, 14)[-1]`: the last element of the ATR
series, `none` when it is NaN or the series is empty. -/
def atrLastOpt (high low close : List ℚ) : Option ℚ :=
  ((atrList high low close).getLast?).join

/-- Talib `OBV` value at position `t`: starts at `vol[0]`, adds the volume
on an up-close, subtracts it on a down-close, unchanged otherwise. -/
def obvVal (close vol : List ℚ) : ℕ → ℚ
  | 0 => vol.getD 0 0
  | t + 1 =>
    if close.getD t 0 < close.getD (t + 1) 0 then obvVal close vol t + vol.getD (t + 1) 0
    else if close.getD (t + 1) 0 < close.getD t 0 then obvVal close vol t - vol.getD (t + 1) 0
    else obvVal close vol t

/-- Talib `OBV(close, vol)` as a series. -/
def obvList (close vol : List ℚ) : List ℚ :=
  (List.range close.length).map (obvVal close vol)

/-- `TechnicalIndicators.find_key_levels`: on fewer than `lookback` bars it
returns two empty lists; otherwise pivot-point levels offset by the last
ATR(14) value of the window. The `none` branch of the ATR match is
unreachable under the guard (a window of ≥ 34 bars always has a defined
last ATR value). -/
def find_key_levels (df : List InputRow) (lookback : ℕ := 34) : List ℚ × List ℚ :=
  if df.length < lookback then ([], [])
  else
    let high := df.map (·.high)
    let low := df.map (·.low)
    let close := df.map (·.close)
    match atrLastOpt high low close with
    | none => ([], [])
    | some atr =>
      let hmax := (high.max?).getD 0
      let lmin := (low.min?).getD 0
      let pp := (hmax + lmin + (close.getLast?).getD 0) / 3
      let r1 := 2 * pp - lmin
      let s1 := 2 * pp - hmax
      ([s1 - (1 / 2) * atr, pp - atr], [r1 + (1 / 2) * atr, pp + atr])

/-- One output row of `TechnicalIndicators.calculate_all`: the original bar
plus the indicator columns. The Bollinger-band and KDJ columns are not
modelled: their values involve square roots / bias-corrected weights that
no verified property refers to. The `support_levels`/`resistance_levels`
cells are `None` (here `none`) until 34 bars of history exist. -/
structure AugRow where
  base : InputRow
  EMA_short : ℚ
  EMA_long : ℚ
  MACD : ℚ
  MACD_signal : ℚ
  MACD_hist : ℚ
  RSI : RFloat
  obv : ℚ
  atr : Option ℚ
  support_levels : Option (List ℚ)
  resistance_levels : Option (List ℚ)
deriving DecidableEq, Repr, Inhabited

/-- `TechnicalIndicators.calculate_all`: computes every modelled indicator
column over the close/high/low/vol series and attaches, for each position
`i ≥ 34`, the key levels of the trailing 35-bar window `df.iloc[i-34:i+1]`. -/
def calculate_all (df : List InputRow) (ema_short_period : ℕ := 5) (ema_long_period : ℕ := 8) :
    List AugRow :=
  let close := df.map (·.close)
  let high := df.map (·.high)
  let low := df.map (·.low)
  let vol := df.map (·.vol)
  let emaS := calculate_ema close ema_short_period
  let emaL := calculate_ema close ema_long_period
  let m := calculate_macd close
  let rsi := calculate_rsi close 14
  let obv := obvList close vol
  let atr := atrList high low close
  (List.range df.length).map fun i =>
    { base := df.getD i default
      EMA_short := emaS.getD i 0
      EMA_long := emaL.getD i 0
      MACD := m.1.getD i 0
      MACD_signal := m.2.1.getD i 0
      MACD_hist := m.2.2.getD i 0
      RSI := rsi.getD i .nan
      obv := obv.getD i 0
      atr := atr.getD i none
      support_levels :=
        if 34 ≤ i then some (find_key_levels ((df.drop (i - 34)).take 35)).1 else none
      resistance_levels :=
        if 34 ≤ i then some (find_key_levels ((df.drop (i - 34)).take 35)).2 else none }

/-- The two crossover kinds reported by `EMAAnalyzer.detect_crossovers`. -/
inductive CrossType where
  | golden_cross : CrossType
  | death_cross : CrossType
deriving DecidableEq, Repr

/-- The `ema_diff` column: `df['EMA_short'] - df['EMA_long']`. -/
def ema_diff (emaS emaL : List ℚ) : List ℚ := List.zipWith (· - ·) emaS emaL

/-- The `crossover` column of `detect_crossovers`. At the first bar
`shift(1)` is NaN, so both masks are false and the value stays `0`. The
death mask is assigned after the golden one, so it is tested first here
(it would overwrite on an — impossible — overlap). -/
def crossoverFlagList (d : List ℚ) : List Int :=
  (List.range d.length).map fun t =>
    match t with
    | 0 => 0
    | s + 1 =>
      if d.getD (s + 1) 0 < 0 ∧ 0 ≤ d.getD s 0 then -1
      else if 0 < d.getD (s + 1) 0 ∧ d.getD s 0 ≤ 0 then 1
      else 0

/-- `EMAAnalyzer.detect_crossovers`, restricted to what the classification
properties refer to: the ordered list of crossover bars with their type
(`1 ↦ golden_cross`, otherwise `death_cross` among the nonzero flags).
The per-event indicator snapshot and 5-day enrichment are handled by
`find_support_resistance` below and are not needed here. -/
def detect_crossovers (emaS emaL : List ℚ) : List (ℕ × CrossType) :=
  let flags := crossoverFlagList (ema_diff emaS emaL)
  (List.range flags.length).filterMap fun t =>
    if flags.getD t 0 = 1 then some (t, CrossType.golden_cross)
    else if flags.getD t 0 = -1 then some (t, CrossType.death_cross)
    else none

/-- A `support_levels`/`resistance_levels` cell as Python sees it: `None`,
some scalar (e.g. a stray NaN float), or a list of floats. Only the
`isinstance(x, list)` shape matters to `find_support_resistance`. -/
inductive LevelCell where
  | null : LevelCell
  | scalar : ℚ → LevelCell
  | levels : List ℚ → LevelCell
deriving DecidableEq, Repr, Inhabited

/-- The columns of `self.df` that `EMAAnalyzer.find_support_resistance`
reads: the date and the two level cells. -/
structure SRRow where
  date : ℚ
  support_levels : LevelCell
  resistance_levels : LevelCell
deriving DecidableEq, Repr, Inhabited

/-- The qualifying test of `find_support_resistance`:
`isinstance(cell, list) and len(cell) >= 2`. -/
def wellFormedLevels : LevelCell → Option (List ℚ)
  | .levels xs => if 2 ≤ xs.length then some xs else none
  | _ => none

/-- `np.mean` of a list of rationals. -/
def npMean (xs : List ℚ) : ℚ := xs.sum / xs.length

/-- `EMAAnalyzer.find_support_resistance`: re-sorts the frame by date,
locates the current bar's date, collects the level cells of the trailing
≤ 5 bars (4 before plus the current one) that pass the `isinstance`/length
test, and returns the element-wise means of their first two entries, or
empty lists when nothing qualifies or the index is `None`/out of range. -/
def find_support_resistance (df : List SRRow) (current_idx : Option ℕ) : List ℚ × List ℚ :=
  match current_idx with
  | none => ([], [])
  | some i =>
    if i < df.length then
      let row := df.getD i default
      let sorted := df.insertionSort fun a b => a.date ≤ b.date
      let pos := sorted.findIdx fun r => decide (r.date = row.date)
      let start := pos - 4
      let window := (sorted.drop start).take (pos + 1 - start)
      let sup := window.filterMap fun r => wellFormedLevels r.support_levels
      let res := window.filterMap fun r => wellFormedLevels r.resistance_levels
      (if sup = [] then []
       else [npMean (sup.map fun xs => xs.getD 0 0), npMean (sup.map fun xs => xs.getD 1 0)],
       if res = [] then []
       else [npMean (res.map fun xs => xs.getD 0 0), npMean (res.map fun xs => xs.getD 1 0)])
    else ([], [])

/-- Averaged level list over a window of cells, as the averaging is
specified: bars whose cell is a list with at least two entries contribute
their first two entries, and the result is empty when none qualify. -/
def avgLevels (cells : List LevelCell) : List ℚ :=
  let q := cells.filterMap wellFormedLevels
  if q = [] then []
  else [npMean (q.map fun xs => xs.getD 0 0), npMean (q.map fun xs => xs.getD 1 0)]

/-- A concrete five-bar frame exercising `find_support_resistance`: three
bars without levels, one bar with well-formed 2-element level lists, and a
final bar whose support field is a 3-element list (and resistance a
2-element list). -/
def srDF : List SRRow :=
  [⟨0, .null, .null⟩, ⟨1, .null, .null⟩, ⟨2, .null, .null⟩,
   ⟨3, .levels [10, 20], .levels [30, 40]⟩, ⟨4, .levels [1, 2, 3], .levels [5, 6]⟩]

/-- The indicator snapshot embedded in a crossover event (the `indicators`
dictionary built by `detect_crossovers`). -/
structure EventIndicators where
  close : ℚ
  change : ℚ
  vol : ℚ
  EMA_short : ℚ
  EMA_long : ℚ
  RSI : ℚ
  MACD : ℚ
  MACD_signal : ℚ
  MACD_hist : ℚ
  k : ℚ
  d : ℚ
  j : ℚ
  obv : ℚ
  atr : ℚ
  bb_upper : ℚ
  bb_middle : ℚ
  bb_lower : ℚ
  support_levels : List ℚ
  resistance_levels : List ℚ
deriving Repr, Inhabited

/-- One entry of the `prev_5_days` list of a crossover event. -/
structure PrevDay where
  date : String
  close : ℚ
  change : ℚ
  vol : ℚ
  EMA_short : ℚ
  EMA_long : ℚ
deriving Repr, Inhabited

/-- A crossover event as assembled by `detect_crossovers` and consumed by
`get_trading_suggestion`. -/
structure CrossoverEvent where
  date : String
  type : CrossType
  indicators : EventIndicators
  prev_5_days : List PrevDay
deriving Repr

/-- Fixed-point rendering of a rational with two decimals, modelling the
Python `:.2f` format (rounding of the exact value to the nearest
hundredth, half away from zero; the decimal re-rounding of binary floats
is idealized). -/
def fmt2 (q : ℚ) : String :=
  let n : Int := if q < 0 then -Int.floor (-q * 100 + 1 / 2) else Int.floor (q * 100 + 1 / 2)
  let sign := if n < 0 then "-" else ""
  let m := n.natAbs
  sign ++ toString (m / 100) ++ "." ++ (if m % 100 < 10 then "0" else "") ++ toString (m % 100)

/-- The support line of the prompt: formatted levels when at least two are
present, otherwise the explicit no-data marker. -/
def supportLine (support_levels : List ℚ) : String :=
  if 2 ≤ support_levels.length then
    "强支撑位: " ++ fmt2 (support_levels.getD 0 0) ++ ", 支撑位: " ++ fmt2 (support_levels.getD 1 0)
  else "无数据"

/-- The resistance line of the prompt. -/
def resistanceLine (resistance_levels : List ℚ) : String :=
  if 2 ≤ resistance_levels.length then
    "强压力位: " ++ fmt2 (resistance_levels.getD 0 0) ++ ", 压力位: "
      ++ fmt2 (resistance_levels.getD 1 0)
  else "无数据"

/-- One line of the prior-5-days table of the prompt. -/
def prevDayLine (i : ℕ) (day : PrevDay) : String :=
  "第" ++ toString i ++ "天 (" ++ day.date ++ "): 收盘价 " ++ fmt2 day.close ++ ", 成交量 "
    ++ fmt2 day.vol ++ ", EMA短期 " ++ fmt2 day.EMA_short ++ ", EMA长期 " ++ fmt2 day.EMA_long
    ++ ", 涨跌幅 " ++ fmt2 day.change ++ "%\n"

/-- `EMAAnalyzer._build_prompt`: the deterministic prompt text for one
crossover event. A total function: every field access is on a declared
field of the event. -/
def build_prompt (stock_name stock_code : String) (crossover : CrossoverEvent) : String :=
  let ind := crossover.indicators
  let cross_type := if crossover.type = CrossType.golden_cross then "金叉" else "死叉"
  let header :=
    if stock_name ≠ "" ∧ stock_code ≠ "" then "股票: " ++ stock_name ++ "(" ++ stock_code ++ ")"
    else ""
  let prev :=
    match crossover.prev_5_days with
    | [] => ""
    | _ =>
      "\n过去5个交易日的基本情况：\n"
        ++ String.join ((List.range crossover.prev_5_days.length).map fun i =>
            prevDayLine (i + 1) (crossover.prev_5_days.getD i default))
  header ++ "\n在" ++ crossover.date ++ "出现了EMA双均线" ++ cross_type ++ "，当前技术指标如下：\n\n收盘价: "
    ++ fmt2 ind.close ++ "\n涨跌幅: " ++ fmt2 ind.change ++ "%\n成交量: " ++ fmt2 ind.vol
    ++ "\nEMA短期: " ++ fmt2 ind.EMA_short ++ "\nEMA长期: " ++ fmt2 ind.EMA_long
    ++ "\nMACD: " ++ fmt2 ind.MACD ++ "\nMACD信号线: " ++ fmt2 ind.MACD_signal
    ++ "\nMACD柱状: " ++ fmt2 ind.MACD_hist ++ "\nRSI: " ++ fmt2 ind.RSI
    ++ "\n布林带上轨: " ++ fmt2 ind.bb_upper ++ "\n布林带中轨: " ++ fmt2 ind.bb_middle
    ++ "\n布林带下轨: " ++ fmt2 ind.bb_lower ++ "\nKDJ-K: " ++ fmt2 ind.k
    ++ "\nKDJ-D: " ++ fmt2 ind.d ++ "\nKDJ-J: " ++ fmt2 ind.j
    ++ "\nOBV: " ++ fmt2 ind.obv ++ "\nATR: " ++ fmt2 ind.atr ++ "\n\n"
    ++ supportLine ind.support_levels ++ "\n" ++ resistanceLine ind.resistance_levels ++ "\n"
    ++ prev
    ++ "基于以上技术指标，请分析是否应该开仓，并给出具体理由。\n请用中文回答，并给出明确的\"建议开仓\"、\"建议不开仓\"的结论。"

/-- A chat message sent to the text-completion collaborator. -/
structure LLMMessage where
  role : String
  content : String

/-- The message inside one choice of a chat-completion response. -/
structure LLMChoiceMessage where
  content : String

/-- One choice of a chat-completion response. -/
structure LLMChoice where
  message : LLMChoiceMessage

/-- A chat-completion response: `response.choices[0].message.content` is
read from it; an empty `choices` list makes that read raise. -/
structure LLMResponse where
  choices : List LLMChoice

/-- The external text-completion collaborator (`DeepSeekClient
.chat_completion` behind `asyncio.run`): any raised exception is modelled
by `Except.error` with the exception text. -/
def Collaborator : Type := List LLMMessage → Except String LLMResponse

/-- The fixed fallback text returned when obtaining a suggestion fails. -/
def fallback_text : String := "获取建议失败，请稍后重试"

/-- `EMAAnalyzer.get_trading_suggestion`: builds the prompt (outside the
`try`), performs the chat-completion call, and returns
`response.choices[0].message.content`; any exception from the call or from
the indexing — both inside the `try` — yields the fallback text. The
Lean return type `String` makes "never raises" a typing fact. -/
def get_trading_suggestion (chat : Collaborator) (stock_name stock_code : String)
    (crossover : CrossoverEvent) : String :=
  let prompt := build_prompt stock_name stock_code crossover
  match chat [⟨"system", "你是一个专业的量化交易分析师，请根据技术指标给出交易建议。"⟩, ⟨"user", prompt⟩] with
  | .ok response =>
    match response.choices with
    | c :: _ => c.message.content
    | [] => fallback_text
  | .error _ => fallback_text

/-- A Python DataFrame value as stored on the heap: either a raw OHLCV
frame or one augmented with the indicator columns. -/
inductive DFVal where
  | raw : List InputRow → DFVal
  | augmented : List AugRow → DFVal
deriving Repr

/-- `TechnicalIndicators.__init__` / `EMAAnalyzer.__init__`:
`self.df = df.copy()` allocates a fresh heap cell holding an equal value
and stores its reference in the object; the caller's cell is untouched.
Returns the new heap and the object's reference. -/
def df_copy_init (heap : List DFVal) (callerRef : ℕ) : List DFVal × ℕ :=
  (heap ++ [heap.getD callerRef (.raw [])], heap.length)

/-- `TechnicalIndicators.calculate_all` mutates the object's own DataFrame
cell in place (column assignments and `.at` writes), augmenting it with
the indicator columns. -/
def ti_calculate_all (heap : List DFVal) (selfRef : ℕ) (s l : ℕ) : List DFVal :=
  heap.set selfRef
    (match heap.getD selfRef (.raw []) with
     | .raw rows => .augmented (calculate_all rows s l)
     | .augmented rows => .augmented rows)

/-- `EMAAnalyzer.detect_crossovers` starts from `df = self.df.copy()` and
only mutates that local copy, so the heap is returned unchanged together
with the detected events. -/
def ema_detect_crossovers (heap : List DFVal) (selfRef : ℕ) : List DFVal × List (ℕ × CrossType) :=
  (heap,
   match heap.getD selfRef (.raw []) with
   | .augmented rows => detect_crossovers (rows.map (·.EMA_short)) (rows.map (·.EMA_long))
   | .raw _ => [])

/-- View of an augmented row as the columns `find_support_resistance`
reads: a `None` level cell is `null`, a stored list is `levels`. -/
def srRowOf (r : AugRow) : SRRow :=
  ⟨r.base.date,
   match r.support_levels with
   | none => .null
   | some xs => .levels xs,
   match r.resistance_levels with
   | none => .null
   | some xs => .levels xs⟩

/-- `EMAAnalyzer.find_support_resistance` reads `self.df` and sorts into a
fresh local frame (`sort_values` returns a new object): the heap is
returned unchanged together with the averaged levels. -/
def ema_find_support_resistance (heap : List DFVal) (selfRef : ℕ) (idx : Option ℕ) :
    List DFVal × (List ℚ × List ℚ) :=
  (heap,
   match heap.getD selfRef (.raw []) with
   | .augmented rows => find_support_resistance (rows.map srRowOf) idx
   | .raw _ => ([], []))

/-- The analysis pipeline as `app.py` runs it: construct
`TechnicalIndicators` on the caller's frame, run `calculate_all` (which
returns `self.df`), construct `EMAAnalyzer` on that result, and detect
crossovers; the resulting heap is returned. -/
def analysis_pipeline (heap : List DFVal) (callerRef : ℕ) (s l : ℕ) : List DFVal :=
  let init1 := df_copy_init heap callerRef
  let heap2 := ti_calculate_all init1.1 init1.2 s l
  let init2 := df_copy_init heap2 init1.2
  (ema_detect_crossovers init2.1 init2.2).1

theorem ewmAux_length (a p : ℚ) (xs : List ℚ) : (ewmAux a p xs).length = xs.length := by
  induction xs generalizing p with
  | nil => rfl
  | cons x xs ih => simp [ewmAux, ih]

theorem ewmMean_length (a : ℚ) (xs : List ℚ) : (ewmMean a xs).length = xs.length := by
  cases xs with
  | nil => rfl
  | cons x xs => simp [ewmMean, ewmAux_length]

theorem calculate_ema_length (close : List ℚ) (period : ℕ) :
    (calculate_ema close period).length = close.length := ewmMean_length _ _

theorem ewmAux_getD (a : ℚ) (xs : List ℚ) (p : ℚ) (t : ℕ) (ht : t < xs.length) :
    (ewmAux a p xs).getD t 0 =
      ewmStep a (if t = 0 then p else (ewmAux a p xs).getD (t - 1) 0) (xs.getD t 0) := by
  induction xs generalizing p t with
  | nil => simp at ht
  | cons x xs ih =>
    cases t with
    | zero => simp [ewmAux]
    | succ s =>
      have hs : s < xs.length := by simpa using ht
      have := ih (ewmStep a p x) s hs
      cases s with
      | zero =>
        simp only [ewmAux, List.getD_cons_succ] at this ⊢
        simpa using this
      | succ u =>
        simp only [ewmAux, List.getD_cons_succ] at this ⊢
        simpa using this

theorem getD_map_range {α : Type _} (n : ℕ) (f : ℕ → α) (t : ℕ) (d : α) (ht : t < n) :
    (((List.range n).map f).getD t d) = f t := by
  have hlen : t < ((List.range n).map f).length := by simpa using ht
  rw [List.getD_eq_getElem _ _ hlen]
  simp

/-- C5. For every non-empty price series and every span, `calculate_ema`
satisfies `EMA[0] = price[0]` exactly, and for all `t ≥ 1` obeys the
recurrence `EMA[t] = α·price[t] + (1-α)·EMA[t-1]` with `α = 2/(span+1)`. -/
theorem calculate_ema_seed_and_recurrence (close : List ℚ) (span : ℕ) (hne : close ≠ []) :
    (calculate_ema close span).getD 0 0 = close.getD 0 0 ∧
    ∀ t, 1 ≤ t → t < close.length →
      (calculate_ema close span).getD t 0 =
        (2 / ((span : ℚ) + 1)) * close.getD t 0 +
          (1 - 2 / ((span : ℚ) + 1)) * (calculate_ema close span).getD (t - 1) 0 := by
  cases close with
  | nil => exact absurd rfl hne
  | cons x xs =>
    refine ⟨by simp [calculate_ema, ewmMean], ?_⟩
    intro t ht1 htlen
    obtain ⟨s, rfl⟩ : ∃ s, t = s + 1 := ⟨t - 1, by omega⟩
    have hs : s < xs.length := by simpa using htlen
    simp only [calculate_ema, ewmMean, List.getD_cons_succ, Nat.add_sub_cancel]
    rw [ewmAux_getD _ _ _ _ hs]
    cases s with
    | zero => simp [ewmStep]
    | succ u => simp [ewmStep, List.getD_cons_succ]

/-- Witness for C5 at the concrete series `[4, 10]` with span 3. -/
theorem calculate_ema_seed_and_recurrence_inst :
    (([(4 : ℚ), 10] : List ℚ) ≠ []) ∧ (1 : ℕ) ≤ 1 ∧ 1 < ([(4 : ℚ), 10] : List ℚ).length ∧
    (calculate_ema [(4 : ℚ), 10] 3).getD 1 0 =
      (2 / ((3 : ℕ) + 1 : ℚ)) * ([(4 : ℚ), 10] : List ℚ).getD 1 0 +
        (1 - 2 / ((3 : ℕ) + 1 : ℚ)) * (calculate_ema [(4 : ℚ), 10] 3).getD 0 0 :=
  ⟨by decide, le_refl 1, by decide,
    (calculate_ema_seed_and_recurrence [(4 : ℚ), 10] 3 (by decide)).2 1 (le_refl 1) (by decide)⟩

theorem crossoverFlagList_length (d : List ℚ) : (crossoverFlagList d).length = d.length := by
  simp [crossoverFlagList]

theorem crossoverFlagList_getD_zero (d : List ℚ) (h : 0 < d.length) :
    (crossoverFlagList d).getD 0 0 = 0 := by
  unfold crossoverFlagList
  rw [getD_map_range _ _ _ _ h]

theorem crossoverFlagList_getD_succ (d : List ℚ) (s : ℕ) (h : s + 1 < d.length) :
    (crossoverFlagList d).getD (s + 1) 0 =
      if d.getD (s + 1) 0 < 0 ∧ 0 ≤ d.getD s 0 then -1
      else if 0 < d.getD (s + 1) 0 ∧ d.getD s 0 ≤ 0 then 1 else 0 := by
  unfold crossoverFlagList
  rw [getD_map_range _ _ _ _ h]

theorem mem_detect_crossovers (emaS emaL : List ℚ) (t : ℕ) (ty : CrossType) :
    (t, ty) ∈ detect_crossovers emaS emaL ↔
      t < (ema_diff emaS emaL).length ∧
        ((crossoverFlagList (ema_diff emaS emaL)).getD t 0 = 1 ∧ ty = CrossType.golden_cross ∨
         (crossoverFlagList (ema_diff emaS emaL)).getD t 0 = -1 ∧ ty = CrossType.death_cross) := by
  unfold detect_crossovers
  simp only [List.mem_filterMap, List.mem_range, crossoverFlagList_length]
  constructor
  · rintro ⟨a, ha, hfa⟩
    by_cases h1 : (crossoverFlagList (ema_diff emaS emaL)).getD a 0 = 1
    · rw [if_pos h1] at hfa
      obtain ⟨rfl, rfl⟩ : a = t ∧ CrossType.golden_cross = ty := by
        simpa using hfa
      exact ⟨ha, Or.inl ⟨h1, rfl⟩⟩
    · rw [if_neg h1] at hfa
      by_cases h2 : (crossoverFlagList (ema_diff emaS emaL)).getD a 0 = -1
      · rw [if_pos h2] at hfa
        obtain ⟨rfl, rfl⟩ : a = t ∧ CrossType.death_cross = ty := by
          simpa using hfa
        exact ⟨ha, Or.inr ⟨h2, rfl⟩⟩
      · rw [if_neg h2] at hfa
        exact absurd hfa (by simp)
  · rintro ⟨ht, h | h⟩
    · exact ⟨t, ht, by rw [if_pos h.1, h.2]⟩
    · refine ⟨t, ht, ?_⟩
      rw [if_neg (by rw [h.1]; decide), if_pos h.1, h.2]

/-- C1. In `detect_crossovers`, with `diff[t] = EMA_short[t] - EMA_long[t]`,
bar `t` is reported golden iff `diff[t] > 0 ∧ diff[t-1] ≤ 0`, death iff
`diff[t] < 0 ∧ diff[t-1] ≥ 0`; the first bar is never a crossover (for
`t = 0` the right-hand sides are false and so are the memberships), and no
bar is reported both ways. -/
theorem detect_crossovers_classification (emaS emaL : List ℚ)
    (hlen : emaS.length = emaL.length) (t : ℕ) (ht : t < emaS.length) :
    (((t, CrossType.golden_cross) ∈ detect_crossovers emaS emaL) ↔
      (1 ≤ t ∧ 0 < (ema_diff emaS emaL).getD t 0 ∧ (ema_diff emaS emaL).getD (t - 1) 0 ≤ 0)) ∧
    (((t, CrossType.death_cross) ∈ detect_crossovers emaS emaL) ↔
      (1 ≤ t ∧ (ema_diff emaS emaL).getD t 0 < 0 ∧ 0 ≤ (ema_diff emaS emaL).getD (t - 1) 0)) ∧
    ¬(((t, CrossType.golden_cross) ∈ detect_crossovers emaS emaL) ∧
      ((t, CrossType.death_cross) ∈ detect_crossovers emaS emaL)) := by
  have htd : t < (ema_diff emaS emaL).length := by
    simpa [ema_diff, hlen] using ht
  have hgold : ((t, CrossType.golden_cross) ∈ detect_crossovers emaS emaL) ↔
      (1 ≤ t ∧ 0 < (ema_diff emaS emaL).getD t 0 ∧ (ema_diff emaS emaL).getD (t - 1) 0 ≤ 0) := by
    rw [mem_detect_crossovers]
    cases t with
    | zero =>
      rw [crossoverFlagList_getD_zero _ htd]
      simp
    | succ s =>
      rw [crossoverFlagList_getD_succ _ _ htd]
      constructor
      · rintro ⟨-, h | h⟩
        · rcases h with ⟨h1, -⟩
          have hc1 : ¬((ema_diff emaS emaL).getD (s + 1) 0 < 0 ∧
              0 ≤ (ema_diff emaS emaL).getD s 0) := by
            intro hc
            rw [if_pos hc] at h1
            exact absurd h1 (by decide)
          have hc2 : 0 < (ema_diff emaS emaL).getD (s + 1) 0 ∧
              (ema_diff emaS emaL).getD s 0 ≤ 0 := by
            by_contra hc
            rw [if_neg hc1, if_neg hc] at h1
            exact absurd h1 (by decide)
          exact ⟨by omega, hc2.1, by simpa using hc2.2⟩
        · exact absurd h.2 (by decide)
      · rintro ⟨-, hpos, hprev⟩
        refine ⟨htd, Or.inl ⟨?_, rfl⟩⟩
        rw [if_neg (by rintro ⟨hneg, -⟩; exact absurd hpos (by simpa using not_lt.mpr hneg.le)),
          if_pos ⟨hpos, by simpa using hprev⟩]
  have hdeath : ((t, CrossType.death_cross) ∈ detect_crossovers emaS emaL) ↔
      (1 ≤ t ∧ (ema_diff emaS emaL).getD t 0 < 0 ∧ 0 ≤ (ema_diff emaS emaL).getD (t - 1) 0) := by
    rw [mem_detect_crossovers]
    cases t with
    | zero =>
      rw [crossoverFlagList_getD_zero _ htd]
      simp
    | succ s =>
      rw [crossoverFlagList_getD_succ _ _ htd]
      constructor
      · rintro ⟨-, h | h⟩
        · exact absurd h.2 (by decide)
        · rcases h with ⟨h1, -⟩
          have hc1 : (ema_diff emaS emaL).getD (s + 1) 0 < 0 ∧
              0 ≤ (ema_diff emaS emaL).getD s 0 := by
            by_contra hc
            rw [if_neg hc] at h1
            have : ((if 0 < (ema_diff emaS emaL).getD (s + 1) 0 ∧
                (ema_diff emaS emaL).getD s 0 ≤ 0 then 1 else 0) : Int) ≠ -1 := by
              split <;> decide
            exact this h1
          exact ⟨by omega, hc1.1, by simpa using hc1.2⟩
      · rintro ⟨-, hneg, hprev⟩
        refine ⟨htd, Or.inr ⟨?_, rfl⟩⟩
        rw [if_pos ⟨hneg, by simpa using hprev⟩]
  refine ⟨hgold, hdeath, ?_⟩
  rintro ⟨hg, hd⟩
  have h1 := (hgold.mp hg).2.1
  have h2 := (hdeath.mp hd).2.1
  linarith

/-- Witness for C1 at `EMA_short = [1, 3]`, `EMA_long = [2, 2]`: the diff
series is `[-1, 1]`, so bar 1 is a golden cross. -/
theorem detect_crossovers_classification_inst :
    ([(1 : ℚ), 3] : List ℚ).length = ([(2 : ℚ), 2] : List ℚ).length ∧
    1 < ([(1 : ℚ), 3] : List ℚ).length ∧
    (1, CrossType.golden_cross) ∈ detect_crossovers [(1 : ℚ), 3] [(2 : ℚ), 2] :=
  ⟨rfl, by decide,
    (detect_crossovers_classification [(1 : ℚ), 3] [(2 : ℚ), 2] rfl 1 (by decide)).1.mpr
      (by refine ⟨le_refl 1, ?_, ?_⟩ <;> with_unfolding_all decide)⟩

theorem calculate_all_length (df : List InputRow) (s l : ℕ) :
    (calculate_all df s l).length = df.length := by
  simp [calculate_all]

/-- C8. `calculate_all` keeps exactly the input's rows in the input's
order: projecting the output back to its base bars gives the input series
unchanged (only indicator columns are added). -/
theorem calculate_all_row_preservation (df : List InputRow) (s l : ℕ) :
    (calculate_all df s l).map (·.base) = df := by
  refine List.ext_getElem (by simp [calculate_all]) ?_
  intro i h1 h2
  simp only [calculate_all, List.getElem_map, List.getElem_range]
  exact List.getD_eq_getElem df default h2

/-- C9. The MACD, signal and histogram columns of `calculate_all` do not
depend on the caller's short/long EMA parameters: two runs with any two
valid parameter pairs agree on all three columns, because `calculate_macd`
is invoked with its fixed default periods 12/26/9. -/
theorem macd_params_noninterference (df : List InputRow) (s1 l1 s2 l2 : ℕ)
    (hv1 : s1 < l1) (hv2 : s2 < l2) :
    (calculate_all df s1 l1).map (·.MACD) = (calculate_all df s2 l2).map (·.MACD) ∧
    (calculate_all df s1 l1).map (·.MACD_signal) = (calculate_all df s2 l2).map (·.MACD_signal) ∧
    (calculate_all df s1 l1).map (·.MACD_hist) = (calculate_all df s2 l2).map (·.MACD_hist) := by
  refine ⟨?_, ?_, ?_⟩ <;> · simp only [calculate_all, List.map_map]; rfl

/-- Witness for C9 at a one-bar series and the parameter pairs (5, 8) and
(12, 26). -/
theorem macd_params_noninterference_inst :
    5 < 8 ∧ 12 < 26 ∧
    (calculate_all [(⟨1, 2, 3, 1, 2, 50, 0⟩ : InputRow)] 5 8).map (·.MACD) =
      (calculate_all [(⟨1, 2, 3, 1, 2, 50, 0⟩ : InputRow)] 12 26).map (·.MACD) :=
  ⟨by omega, by omega,
    (macd_params_noninterference [(⟨1, 2, 3, 1, 2, 50, 0⟩ : InputRow)] 5 8 12 26
      (by omega) (by omega)).1⟩

/-- Length of a level cell as downstream code sees it: a `None` cell reads
as an empty list (`get_indicators_at_point` maps `None` to `[]`). -/
def fieldLen : Option (List ℚ) → ℕ
  | none => 0
  | some xs => xs.length

theorem atrLastOpt_eq_some (high low close : List ℚ) (h : 15 ≤ close.length) :
    atrLastOpt high low close = some (atrVal high low close (close.length - 1)) := by
  unfold atrLastOpt atrList
  rw [List.getLast?_map, List.getLast?_range]
  rw [if_neg (by omega)]
  simp only [Option.map_some']
  rw [if_pos (by omega)]
  rfl

theorem find_key_levels_shape (w : List InputRow) (hw : w.length = 35) :
    (find_key_levels w).1.length = 2 ∧ (find_key_levels w).2.length = 2 := by
  have hc : 15 ≤ (w.map (·.close)).length := by simp [hw]
  simp only [find_key_levels]
  rw [if_neg (by omega), atrLastOpt_eq_some _ _ _ hc]
  exact ⟨rfl, rfl⟩

theorem calculate_all_levels (df : List InputRow) (s l i : ℕ) (hi : i < df.length) :
    ((calculate_all df s l).getD i default).support_levels =
      (if 34 ≤ i then some (find_key_levels ((df.drop (i - 34)).take 35)).1 else none) ∧
    ((calculate_all df s l).getD i default).resistance_levels =
      (if 34 ≤ i then some (find_key_levels ((df.drop (i - 34)).take 35)).2 else none) := by
  simp only [calculate_all]
  rw [getD_map_range _ _ _ _ hi]
  exact ⟨rfl, rfl⟩

theorem window_length_35 (df : List InputRow) (i : ℕ) (h34 : 34 ≤ i) (hi : i < df.length) :
    ((df.drop (i - 34)).take 35).length = 35 := by
  simp only [List.length_take, List.length_drop]
  omega

/-- C3. In every output row of `calculate_all`, the
`support_levels`/`resistance_levels` cells have length 0 or 2 (never 1 or
more than 2), and they are empty exactly at positions 0 through 33 — the
bars with fewer than 35 trailing bars of history. In particular every bar
of a series shorter than 35 bars has empty level cells. -/
theorem support_resistance_column_shape (df : List InputRow) (s l i : ℕ)
    (hi : i < (calculate_all df s l).length) :
    ((fieldLen ((calculate_all df s l).getD i default).support_levels = 0 ∨
      fieldLen ((calculate_all df s l).getD i default).support_levels = 2) ∧
     (fieldLen ((calculate_all df s l).getD i default).support_levels = 0 ↔ i < 34)) ∧
    ((fieldLen ((calculate_all df s l).getD i default).resistance_levels = 0 ∨
      fieldLen ((calculate_all df s l).getD i default).resistance_levels = 2) ∧
     (fieldLen ((calculate_all df s l).getD i default).resistance_levels = 0 ↔ i < 34)) := by
  have hidf : i < df.length := by
    rwa [calculate_all_length] at hi
  obtain ⟨hs, hr⟩ := calculate_all_levels df s l i hidf
  rw [hs, hr]
  by_cases h34 : 34 ≤ i
  · have hw2 := find_key_levels_shape _ (window_length_35 df i h34 hidf)
    rw [if_pos h34, if_pos h34]
    refine ⟨⟨Or.inr ?_, ?_⟩, ⟨Or.inr ?_, ?_⟩⟩
    · simpa [fieldLen] using hw2.1
    · simp only [fieldLen, hw2.1]
      exact iff_of_false (by omega) (by omega)
    · simpa [fieldLen] using hw2.2
    · simp only [fieldLen, hw2.2]
      exact iff_of_false (by omega) (by omega)
  · rw [if_neg h34, if_neg h34]
    refine ⟨⟨Or.inl rfl, ?_⟩, ⟨Or.inl rfl, ?_⟩⟩ <;> · simp only [fieldLen]
                                                      exact iff_of_true (by trivial) (by omega)

/-- Witness for C3 at a constant 35-bar series: position 34 (the first with
35 trailing bars) carries a 2-element level list. -/
theorem support_resistance_column_shape_inst :
    34 < (calculate_all (List.replicate 35 (⟨7, 10, 10, 10, 10, 100, 0⟩ : InputRow)) 5 8).length ∧
    fieldLen ((calculate_all (List.replicate 35 (⟨7, 10, 10, 10, 10, 100, 0⟩ : InputRow)) 5
        8).getD 34 default).support_levels = 2 := by
  have h34 : 34 <
      (calculate_all (List.replicate 35 (⟨7, 10, 10, 10, 10, 100, 0⟩ : InputRow)) 5 8).length := by
    rw [calculate_all_length]
    simp
  refine ⟨h34, ?_⟩
  have h := support_resistance_column_shape
    (List.replicate 35 (⟨7, 10, 10, 10, 10, 100, 0⟩ : InputRow)) 5 8 34 h34
  exact h.1.1.resolve_left fun h0 => absurd (h.1.2.mp h0) (by omega)

/-- Pivot point of a window, written as the specification reads:
`(window.high.max() + window.low.min() + window.close.last()) / 3`. -/
def spec_PP (w : List InputRow) : ℚ :=
  (((w.map (·.high)).max?).getD 0 + ((w.map (·.low)).min?).getD 0 +
    ((w.map (·.close)).getLast?).getD 0) / 3

/-- `R1 = 2·PP − window.low.min()`. -/
def spec_R1 (w : List InputRow) : ℚ := 2 * spec_PP w - ((w.map (·.low)).min?).getD 0

/-- `S1 = 2·PP − window.high.max()`. -/
def spec_S1 (w : List InputRow) : ℚ := 2 * spec_PP w - ((w.map (·.high)).max?).getD 0

/-- C4. On every 35-bar window whose 14-period ATR has last value `a`,
`find_key_levels` returns the supports `[S1 - 0.5·a, PP - a]` and the
resistances `[R1 + 0.5·a, PP + a]` with `PP`, `R1`, `S1` the pivot
formulas over the window. -/
theorem find_key_levels_formula (w : List InputRow) (hw : w.length = 35) (a : ℚ)
    (ha : atrLastOpt (w.map (·.high)) (w.map (·.low)) (w.map (·.close)) = some a) :
    find_key_levels w =
      ([spec_S1 w - (1 / 2) * a, spec_PP w - a], [spec_R1 w + (1 / 2) * a, spec_PP w + a]) := by
  simp only [find_key_levels]
  rw [if_neg (by omega), ha]
  simp only [spec_S1, spec_R1, spec_PP]

set_option maxRecDepth 4000 in
/-- Witness for C4 at a constant 35-bar window (every true range is 0, so
the last ATR value is 0 and all four levels equal the constant price). -/
theorem find_key_levels_formula_inst :
    (List.replicate 35 (⟨7, 10, 10, 10, 10, 100, 0⟩ : InputRow)).length = 35 ∧
    atrLastOpt ((List.replicate 35 (⟨7, 10, 10, 10, 10, 100, 0⟩ : InputRow)).map (·.high))
      ((List.replicate 35 (⟨7, 10, 10, 10, 10, 100, 0⟩ : InputRow)).map (·.low))
      ((List.replicate 35 (⟨7, 10, 10, 10, 10, 100, 0⟩ : InputRow)).map (·.close)) = some 0 ∧
    find_key_levels (List.replicate 35 (⟨7, 10, 10, 10, 10, 100, 0⟩ : InputRow)) =
      ([spec_S1 (List.replicate 35 (⟨7, 10, 10, 10, 10, 100, 0⟩ : InputRow)) - (1 / 2) * 0,
        spec_PP (List.replicate 35 (⟨7, 10, 10, 10, 10, 100, 0⟩ : InputRow)) - 0],
       [spec_R1 (List.replicate 35 (⟨7, 10, 10, 10, 10, 100, 0⟩ : InputRow)) + (1 / 2) * 0,
        spec_PP (List.replicate 35 (⟨7, 10, 10, 10, 10, 100, 0⟩ : InputRow)) + 0]) :=
  ⟨by simp, by with_unfolding_all rfl,
    find_key_levels_formula (List.replicate 35 (⟨7, 10, 10, 10, 10, 100, 0⟩ : InputRow))
      (by simp) 0 (by with_unfolding_all rfl)⟩

theorem diffList_length (xs : List ℚ) : (diffList xs).length = xs.length := by
  simp [diffList]

theorem gainList_length (xs : List ℚ) : (gainList xs).length = xs.length := by
  simp [gainList, diffList_length]

theorem lossList_length (xs : List ℚ) : (lossList xs).length = xs.length := by
  simp [lossList, diffList_length]

theorem rollingMean_length (p : ℕ) (xs : List ℚ) : (rollingMean p xs).length = xs.length := by
  simp [rollingMean]

theorem lossList_getD (xs : List ℚ) (i : ℕ) (h : i < xs.length) :
    (lossList xs).getD i 0 =
      if i = 0 then 0
      else if xs.getD i 0 - xs.getD (i - 1) 0 < 0 then -(xs.getD i 0 - xs.getD (i - 1) 0)
      else 0 := by
  rw [lossList, diffList, List.map_map, getD_map_range _ _ _ _ h]
  by_cases h0 : i = 0 <;> simp [h0]

theorem gainList_getD (xs : List ℚ) (i : ℕ) (h : i < xs.length) :
    (gainList xs).getD i 0 =
      if i = 0 then 0
      else if 0 < xs.getD i 0 - xs.getD (i - 1) 0 then xs.getD i 0 - xs.getD (i - 1) 0
      else 0 := by
  rw [gainList, diffList, List.map_map, getD_map_range _ _ _ _ h]
  by_cases h0 : i = 0 <;> simp [h0]

theorem gainList_nonneg (xs : List ℚ) (x : ℚ) (hx : x ∈ gainList xs) : 0 ≤ x := by
  rw [gainList] at hx
  obtain ⟨d, -, rfl⟩ := List.mem_map.mp hx
  cases d with
  | none => exact le_refl 0
  | some v =>
    by_cases hv : 0 < v
    · simpa [hv] using hv.le
    · simp [hv]

theorem rollingMean_getD (p : ℕ) (xs : List ℚ) (t : ℕ) (h : t < xs.length) (hp : p ≤ t + 1) :
    (rollingMean p xs).getD t none =
      some ((((xs.take (t + 1)).drop (t + 1 - p)).sum) / p) := by
  rw [rollingMean, getD_map_range _ _ _ _ h, if_pos hp]

theorem calculate_rsi_getD (close : List ℚ) (p t : ℕ) (ht : t < close.length) :
    (calculate_rsi close p).getD t .nan =
      rsiFromRs (rsiDiv ((rollingMean p (gainList close)).getD t none)
        ((rollingMean p (lossList close)).getD t none)) := by
  have hg : t < (rollingMean p (gainList close)).length := by
    rw [rollingMean_length, gainList_length]; exact ht
  have hl : t < (rollingMean p (lossList close)).length := by
    rw [rollingMean_length, lossList_length]; exact ht
  have hz : t < (List.zipWith (fun g l => rsiFromRs (rsiDiv g l))
      (rollingMean p (gainList close)) (rollingMean p (lossList close))).length := by
    rw [List.length_zipWith]
    omega
  simp only [calculate_rsi]
  rw [List.getD_eq_getElem _ _ hz, List.getElem_zipWith,
    ← List.getD_eq_getElem (rollingMean p (gainList close)) none hg,
    ← List.getD_eq_getElem (rollingMean p (lossList close)) none hl]

/-- Counterexample for C2. On the strictly increasing 20-bar close series
`1, 2, …, 20` the RSI at the last bar is exactly 100, not NaN: the zero
average loss makes `rs = gain/0 = +∞` in float arithmetic (not NaN), and
`100 - 100/(1+∞) = 100`. -/
theorem rsi_increasing_series_not_nan :
    (calculate_rsi ((List.range 20).map fun n => ((n + 1 : ℕ) : ℚ)) 14).getD 19 RFloat.nan =
      RFloat.val 100 ∧
    (calculate_rsi ((List.range 20).map fun n => ((n + 1 : ℕ) : ℚ)) 14).getD 19 RFloat.nan ≠
      RFloat.nan := by
  constructor <;> with_unfolding_all decide

/-- C2 as amended. For every close series and bar `t ≥ 13` whose trailing
14-slot delta window (deltas at positions `max(t-13,1) .. t`) contains no
negative delta but at least one positive delta — e.g. every late bar of a
strictly increasing series — the RSI produced by `calculate_rsi` is
exactly 100 (the claim said NaN; pandas produces `+∞` for the positive
over zero division, and `100 - 100/(1+∞)` is 100). -/
theorem rsi_zero_loss_eq_100 (close : List ℚ) (t : ℕ) (ht : t < close.length) (h13 : 13 ≤ t)
    (hnoneg : ∀ i, t - 13 ≤ i → i ≤ t → 1 ≤ i → close.getD (i - 1) 0 ≤ close.getD i 0)
    (hpos : ∃ i, t - 13 ≤ i ∧ i ≤ t ∧ 1 ≤ i ∧ close.getD (i - 1) 0 < close.getD i 0) :
    (calculate_rsi close 14).getD t .nan = RFloat.val 100 := by
  have hp : 14 ≤ t + 1 := by omega
  rw [calculate_rsi_getD close 14 t ht,
    rollingMean_getD _ _ _ (by rw [gainList_length]; exact ht) hp,
    rollingMean_getD _ _ _ (by rw [lossList_length]; exact ht) hp]
  have hGlen : (gainList close).length = close.length := gainList_length close
  have hLlen : (lossList close).length = close.length := lossList_length close
  -- the loss window is all zeros
  have hlossZero : ((((lossList close).take (t + 1)).drop (t + 1 - 14)).sum) = 0 := by
    apply List.sum_eq_zero
    intro x hx
    obtain ⟨j, hj, hjx⟩ := List.mem_iff_getElem.mp hx
    have hjlen : t + 1 - 14 + j < (lossList close).length := by
      simp only [List.length_drop, List.length_take] at hj
      omega
    have hidx : (t + 1 - 14) + j ≤ t := by
      simp only [List.length_drop, List.length_take] at hj
      omega
    rw [List.getElem_drop, List.getElem_take] at hjx
    rw [← hjx, ← List.getD_eq_getElem (lossList close) 0 hjlen,
      lossList_getD close _ (by omega)]
    by_cases h0 : (t + 1 - 14) + j = 0
    · rw [if_pos h0]
    · rw [if_neg h0]
      have hle := hnoneg ((t + 1 - 14) + j) (by omega) hidx (by omega)
      rw [if_neg (by linarith)]
  -- the gain window has a positive entry and only nonnegative entries
  obtain ⟨i0, hi1, hi2, hi3, hi4⟩ := hpos
  have hgainPos : 0 < ((((gainList close).take (t + 1)).drop (t + 1 - 14)).sum) := by
    have hSlen : (((gainList close).take (t + 1)).drop (t + 1 - 14)).length = 14 := by
      simp only [List.length_drop, List.length_take, hGlen]
      omega
    have hj0 : i0 - (t + 1 - 14) < (((gainList close).take (t + 1)).drop (t + 1 - 14)).length := by
      omega
    have hjlen : t + 1 - 14 + (i0 - (t + 1 - 14)) < (gainList close).length := by
      omega
    have hval : (((gainList close).take (t + 1)).drop (t + 1 - 14)).get ⟨i0 - (t + 1 - 14), hj0⟩ =
        close.getD i0 0 - close.getD (i0 - 1) 0 := by
      rw [List.get_eq_getElem, List.getElem_drop, List.getElem_take,
        ← List.getD_eq_getElem (gainList close) 0 hjlen]
      have hieq : (t + 1 - 14) + (i0 - (t + 1 - 14)) = i0 := by omega
      rw [hieq, gainList_getD close i0 (by omega), if_neg (by omega),
        if_pos (by linarith)]
    have hmem : (((gainList close).take (t + 1)).drop (t + 1 - 14)).get ⟨i0 - (t + 1 - 14), hj0⟩ ∈
        (((gainList close).take (t + 1)).drop (t + 1 - 14)) := by
      rw [List.get_eq_getElem]
      exact List.getElem_mem hj0
    have hnn : ∀ x ∈ (((gainList close).take (t + 1)).drop (t + 1 - 14)), 0 ≤ x := by
      intro x hx
      exact gainList_nonneg close x (List.mem_of_mem_take (List.mem_of_mem_drop hx))
    have hle := List.single_le_sum hnn _ hmem
    rw [hval] at hle
    linarith
  rw [hlossZero, zero_div]
  have hdivPos :
      0 < (((gainList close).take (t + 1)).drop (t + 1 - 14)).sum / ((14 : ℕ) : ℚ) := by
    have : (0 : ℚ) < ((14 : ℕ) : ℚ) := by norm_num
    exact div_pos hgainPos this
  simp only [rsiDiv, if_true]
  rw [if_pos hdivPos]
  rfl

/-- Witness for C2 as amended, at the strictly increasing series
`1, 2, …, 20` and bar 19. -/
theorem rsi_zero_loss_eq_100_inst :
    19 < ((List.range 20).map fun n => ((n + 1 : ℕ) : ℚ)).length ∧ 13 ≤ 19 ∧
    (∀ i, 19 - 13 ≤ i → i ≤ 19 → 1 ≤ i →
      ((List.range 20).map fun n => ((n + 1 : ℕ) : ℚ)).getD (i - 1) 0 ≤
        ((List.range 20).map fun n => ((n + 1 : ℕ) : ℚ)).getD i 0) ∧
    (∃ i, 19 - 13 ≤ i ∧ i ≤ 19 ∧ 1 ≤ i ∧
      ((List.range 20).map fun n => ((n + 1 : ℕ) : ℚ)).getD (i - 1) 0 <
        ((List.range 20).map fun n => ((n + 1 : ℕ) : ℚ)).getD i 0) ∧
    (calculate_rsi ((List.range 20).map fun n => ((n + 1 : ℕ) : ℚ)) 14).getD 19 .nan =
      RFloat.val 100 := by
  have hlen : 19 < ((List.range 20).map fun n => ((n + 1 : ℕ) : ℚ)).length := by simp
  have hno : ∀ i, 19 - 13 ≤ i → i ≤ 19 → 1 ≤ i →
      ((List.range 20).map fun n => ((n + 1 : ℕ) : ℚ)).getD (i - 1) 0 ≤
        ((List.range 20).map fun n => ((n + 1 : ℕ) : ℚ)).getD i 0 := by
    intro i h1 h2 h3
    interval_cases i <;> with_unfolding_all decide
  have hex : ∃ i, 19 - 13 ≤ i ∧ i ≤ 19 ∧ 1 ≤ i ∧
      ((List.range 20).map fun n => ((n + 1 : ℕ) : ℚ)).getD (i - 1) 0 <
        ((List.range 20).map fun n => ((n + 1 : ℕ) : ℚ)).getD i 0 :=
    ⟨7, by omega, by omega, by omega, by with_unfolding_all decide⟩
  exact ⟨hlen, by omega, hno, hex,
    rsi_zero_loss_eq_100 _ 19 hlen (by omega) hno hex⟩

theorem findIdx_of_pairwise_date (df : List SRRow)
    (hmono : List.Pairwise (fun a b : SRRow => a.date < b.date) df) (i : ℕ) (hi : i < df.length) :
    df.findIdx (fun r => decide (r.date = (df.getD i default).date)) = i := by
  induction df generalizing i with
  | nil => simp at hi
  | cons r rest ih =>
    cases i with
    | zero => simp [List.findIdx_cons]
    | succ j =>
      have hj : j < rest.length := by simpa using hi
      have hmem : rest.getD j default ∈ rest := by
        rw [List.getD_eq_getElem _ _ hj]
        exact List.getElem_mem hj
      have hlt : r.date < (rest.getD j default).date :=
        (List.pairwise_cons.mp hmono).1 _ hmem
      have hpa : (decide (r.date = ((r :: rest).getD (j + 1) default).date)) = false := by
        simp only [List.getD_cons_succ]
        simpa using ne_of_lt hlt
      rw [List.findIdx_cons, hpa]
      simp only [cond_false, List.getD_cons_succ]
      rw [ih (List.pairwise_cons.mp hmono).2 j hj]

theorem drop_take_window {α : Type _} (df : List α) (i : ℕ) :
    (df.drop (i - 4)).take (i + 1 - (i - 4)) = (df.take (i + 1)).drop (i + 1 - 5) := by
  have h1 : i - 4 = i + 1 - 5 := by omega
  rw [List.drop_take, ← h1]

/-- Counterexample for C6. A trailing bar whose stored level field is the
3-element list `[1, 2, 3]` — not a well-formed 2-element list — still
contributes its first two entries to the averages (the code tests
`len >= 2`, not `== 2`): with qualifying entries `[10, 20]` and
`[1, 2, 3]`, the averaged support is `[5.5, 11]`, not the `[10, 20]` the
claim predicts. -/
theorem find_support_resistance_len3_cex :
    (find_support_resistance srDF (some 4)).1 = [11 / 2, 11] ∧
    (find_support_resistance srDF (some 4)).1 ≠ [10, 20] := by
  constructor <;> with_unfolding_all decide

/-- C6 as amended. For a date-sorted frame with distinct dates (as the
upstream fetcher guarantees) and a valid crossover index, the averaged
support/resistance lists of `find_support_resistance` are the element-wise
means of the first two entries over exactly those of the trailing at-most-5
bars whose stored level field is a list of *at least* two elements (longer
lists contribute their first two entries); if no trailing bar qualifies
the result is empty, and the function is total — it never raises on
absent or malformed level fields. -/
theorem find_support_resistance_mean_spec (df : List SRRow) (i : ℕ)
    (hsorted : List.Pairwise (fun a b : SRRow => a.date < b.date) df) (hi : i < df.length) :
    find_support_resistance df (some i) =
      (avgLevels (((df.take (i + 1)).drop (i + 1 - 5)).map (·.support_levels)),
       avgLevels (((df.take (i + 1)).drop (i + 1 - 5)).map (·.resistance_levels))) := by
  have hsorted2 : List.Sorted (fun a b : SRRow => a.date ≤ b.date) df :=
    List.Pairwise.imp (fun h => le_of_lt h) hsorted
  simp only [find_support_resistance]
  rw [if_pos hi, List.Sorted.insertionSort_eq hsorted2,
    findIdx_of_pairwise_date df hsorted i hi, drop_take_window]
  simp only [avgLevels, List.filterMap_map]
  rfl

/-- Witness for C6 as amended, at the counterexample frame and index 4. -/
theorem find_support_resistance_mean_spec_inst :
    List.Pairwise (fun a b : SRRow => a.date < b.date) srDF ∧ 4 < srDF.length ∧
    find_support_resistance srDF (some 4) =
      (avgLevels (((srDF.take (4 + 1)).drop (4 + 1 - 5)).map (·.support_levels)),
       avgLevels (((srDF.take (4 + 1)).drop (4 + 1 - 5)).map (·.resistance_levels))) := by
  have hp : List.Pairwise (fun a b : SRRow => a.date < b.date) srDF := by
    with_unfolding_all decide
  exact ⟨hp, by decide, find_support_resistance_mean_spec srDF 4 hp (by decide)⟩

/-- C7. If the text-completion call fails with any exception — including a
well-formed reply whose `choices` list is empty, which makes the indexing
inside the `try` raise — `get_trading_suggestion` returns the fixed
fallback string; being a total `String`-valued function it never raises.
In particular an always-failing collaborator yields the fallback on every
event. -/
theorem get_trading_suggestion_fallback (chat : Collaborator)
    (hfail : ∀ msgs, ∃ e, chat msgs = Except.error e)
    (stock_name stock_code : String) (crossover : CrossoverEvent) :
    get_trading_suggestion chat stock_name stock_code crossover = fallback_text := by
  simp only [get_trading_suggestion]
  obtain ⟨e, he⟩ := hfail _
  rw [he]

/-- Witness for C7 with a collaborator that always times out, on a concrete
golden-cross event. -/
theorem get_trading_suggestion_fallback_inst :
    (∀ msgs, ∃ e : String,
      (fun _ : List LLMMessage => (Except.error "timeout" : Except String LLMResponse)) msgs =
        Except.error e) ∧
    get_trading_suggestion (fun _ => Except.error "timeout") "" ""
      ⟨"2024-01-01", CrossType.golden_cross, default, []⟩ = fallback_text :=
  ⟨fun _ => ⟨"timeout", rfl⟩,
   get_trading_suggestion_fallback (fun _ => Except.error "timeout")
     (fun _ => ⟨"timeout", rfl⟩) "" "" ⟨"2024-01-01", CrossType.golden_cross, default, []⟩⟩

theorem heap_step_getD (h1 : List DFVal) (x v y : DFVal) (r : ℕ) (hr : r < h1.length) :
    (((h1 ++ [x]).set h1.length v) ++ [y]).getD r (.raw []) = h1.getD r (.raw []) := by
  rw [List.getD_eq_getElem?_getD, List.getD_eq_getElem?_getD,
    List.getElem?_append_left (by simp only [List.length_set, List.length_append]; omega),
    List.getElem?_set_ne (by omega), List.getElem?_append_left hr]

/-- C10. The constructors copy the caller's DataFrame into a fresh heap
cell, `calculate_all` mutates only the object's own cell, and
`detect_crossovers`/`find_support_resistance` work on local copies and
leave the heap unchanged — so after the whole analysis pipeline the
caller's original cell holds its original value. -/
theorem caller_df_unmodified (heap : List DFVal) (r s l : ℕ) (idx : Option ℕ)
    (hr : r < heap.length) :
    (analysis_pipeline heap r s l).getD r (.raw []) = heap.getD r (.raw []) ∧
    (∀ h2 ref, (ema_find_support_resistance h2 ref idx).1 = h2) ∧
    (∀ h2 ref, (ema_detect_crossovers h2 ref).1 = h2) := by
  refine ⟨?_, fun h2 ref => rfl, fun h2 ref => rfl⟩
  simp only [analysis_pipeline, df_copy_init, ti_calculate_all, ema_detect_crossovers]
  exact heap_step_getD heap _ _ _ r hr

/-- Witness for C10 at a one-cell heap holding a one-bar raw frame. -/
theorem caller_df_unmodified_inst :
    0 < ([DFVal.raw [⟨1, 2, 3, 1, 2, 50, 0⟩]] : List DFVal).length ∧
    (analysis_pipeline [DFVal.raw [⟨1, 2, 3, 1, 2, 50, 0⟩]] 0 5 8).getD 0 (.raw []) =
      ([DFVal.raw [⟨1, 2, 3, 1, 2, 50, 0⟩]] : List DFVal).getD 0 (.raw []) :=
  ⟨by decide, (caller_df_unmodified [DFVal.raw [⟨1, 2, 3, 1, 2, 50, 0⟩]] 0 5 8 none
    (by decide)).1⟩
